import Mathlib

/-!
# Verification of the smtrun constraint compiler

A shallow embedding of the smtrun repository (`main.go`, `parse.go`,
`process.go`): a small compiler from a Go-flavored constraint language
("SMTL") to solver terms, plus the CLI driver.

The Go sources consume the output of `go/parser` (`*ast.File`, `ast.Stmt`,
`ast.Expr`).  We embed those tree shapes as closed inductive types carrying
exactly the fields the smtrun code inspects, and translate every smtrun
function into a Lean function of the same name.  Solver terms (`*z3.AST`)
are embedded as an inductive `Term`; a possibly-nil `*z3.AST` value is
`Option Term` (`none` = Go `nil`).  A Go `(result, err)` pair is modelled
verbatim as a pair of options (both components can be set at once, which
actually happens in `processCallExpr`), and calling a z3 method on a nil
AST — which crashes the process — is modelled by an explicit `panicked`
outcome that propagates like an uncaught Go panic.
-/

/-- The Go `token.Token` values the smtrun code inspects: the binary and
unary operators dispatched in `processBOP`/`processUnaryExpr`, the `var`
keyword tested in `processDeclStmt`, and the basic-literal kinds tested in
`processBasicLit`.  `other` stands for any further token. -/
inductive Tok where
  | ADD | SUB | MUL | LAND | LOR | EQL | LSS | GTR | NEQ | LEQ | GEQ
  | NOT | VAR | INT | STRING | FLOAT | CHAR | IMAG
  | other
deriving DecidableEq

/-- The two z3 sorts the program allocates (`ctx.IntSort()`, `ctx.BoolSort()`). -/
inductive ZSort where
  | int | bool
deriving DecidableEq

/-- Embedded z3 terms: one constructor per go-z3 term construction the
smtrun code performs (`ctx.Const`, `ctx.Int`, `ctx.True`/`ctx.False`,
the `AST` methods `Add`..`Ge`, `Not`, `Distinct`, `Implies`, `Iff`). -/
inductive Term where
  | const (name : String) (sort : ZSort)
  | intLit (n : Int)
  | tt | ff
  | add (x y : Term) | sub (x y : Term) | mul (x y : Term)
  | and (x y : Term) | or (x y : Term) | eq (x y : Term)
  | lt (x y : Term) | gt (x y : Term) | le (x y : Term) | ge (x y : Term)
  | not (x : Term)
  | distinct (x : Term) (rest : List Term)
  | implies (x y : Term)
  | iff (x y : Term)

/-- Go `ast.Expr` nodes, restricted to the dynamic types the smtrun code
switches on: `Ident`, `BasicLit` (kind + literal text), `BinaryExpr`,
`UnaryExpr`, `CallExpr`, `ParenExpr`, `SelectorExpr`; `badExpr` stands for
every other node type (hitting the `default` branches). -/
inductive Expr where
  | ident (name : String)
  | basicLit (kind : Tok) (value : String)
  | binary (x : Expr) (op : Tok) (y : Expr)
  | unary (op : Tok) (x : Expr)
  | call (f : Expr) (args : List Expr)
  | paren (x : Expr)
  | selector (x : Expr) (sel : String)
  | badExpr

/-- Go `ast.ValueSpec`: the declared names and the type expression.  The
type is inspected only as: an `Ident` (its name), an `ArrayType`, or
anything else. -/
inductive TypeE where
  | ident (name : String)
  | array
  | otherT
deriving DecidableEq

/-- A `var` spec (`ast.ValueSpec`): names sharing one declared type. -/
structure VSpec where
  names : List String
  ty : TypeE

/-- Go `ast.Decl` inside a `DeclStmt`: a `GenDecl` (token + spec list) or
any other declaration node. -/
inductive Decl where
  | genDecl (tok : Tok) (specs : List VSpec)
  | otherDecl

/-- Go `ast.Stmt`, restricted to the dynamic types `processStmt` switches
on: `DeclStmt`, `ExprStmt`; `otherStmt` is every other statement node. -/
inductive Stmt where
  | declStmt (d : Decl)
  | exprStmt (x : Expr)
  | otherStmt

/-- A top-level declaration of the parsed file: a function declaration
(name, parameter names, body statement list) or any other declaration.
(`parseSmtlFile` only looks for `*ast.FuncDecl` nodes and reads their
name and body.) -/
inductive TopDecl where
  | funcDecl (name : String) (params : List String) (body : List Stmt)
  | otherTop

/-- The parsed file (`*ast.File`): package name and top-level declarations.
Files are modelled post-parse; a `go/parser` syntax failure is external to
the repository and surfaces like any other error return of
`parseSmtlFile`. -/
structure File where
  pkgName : String
  decls : List TopDecl

/-- The variable table `varTab : map[string]*z3.AST`, as an association
list in insertion order.  The code checks presence before every insert, so
keys are never overwritten; iteration order is only used in `run`, where
the names are sorted first. -/
abbrev VarTab := List (String × Term)

/-- Result of a Go expression-processing function returning
`(r *z3.AST, err error)`: either a normal return carrying the two values
(`none` = nil), or a runtime panic (nil-AST method call), which no smtrun
code catches. -/
inductive ERes where
  | ret (r : Option Term) (err : Option String)
  | panicked

/-- Result of the argument loop at the top of `processCallExpr`:
the `args` slice built so far plus the `err` variable, or a panic. -/
inductive ArgsRes where
  | ret (args : List (Option Term)) (err : Option String)
  | panicked

/-- Go `strconv.Atoi`: base-10 `ParseInt` into a 64-bit int.  Accepts an
optional sign followed by one or more ASCII digits; anything else (empty
string, hex/binary/octal prefixes, digit separators) or a value outside
the `int64` range is an error (`none`). -/
def atoi (s : String) : Option Int :=
  let (sign, digits) :=
    match s.data with
    | '+' :: rest => ((1 : Int), rest)
    | '-' :: rest => ((-1 : Int), rest)
    | l => ((1 : Int), l)
  if digits = [] then none
  else if digits.all (fun c => c.isDigit) then
    let v : Int := sign * digits.foldl (fun a c => a * 10 + ((c.toNat : Int) - 48)) 0
    if v < -(2 ^ 63) ∨ (2 ^ 63 - 1 : Int) < v then none else some v
  else none

/-- Function `processIdent` (process.go:179-193): `true`/`false` are reserved;
otherwise the name is looked up in `varTab` (`varTab[ident.Name] != nil`),
and absence is the unknown-variable error. -/
def processIdent (varTab : VarTab) (name : String) : ERes :=
  if name = "true" then .ret (some .tt) none
  else if name = "false" then .ret (some .ff) none
  else
    match (List.lookup name (varTab : List (String × Term))) with
    | some t => .ret (some t) none
    | none => .ret none (some (name ++ " is unknown variable"))

/-- Function `processBasicLit` (process.go:195-203).  Note the Go source shadows the
named return `err` with `intVal, err := strconv.Atoi(...)` inside the `if`
block, so the outer `err` is never assigned: a non-INT literal, and an INT
literal whose text `Atoi` rejects, both return `(nil, nil)`. -/
def processBasicLit (kind : Tok) (value : String) : ERes :=
  if kind = Tok.INT then
    match atoi value with
    | some n => .ret (some (.intLit n)) none
    | none => .ret none none
  else .ret none none

/-- The shape of one go-z3 binary term construction `x.Add(y)` etc.:
calling the method with a nil receiver or nil argument dereferences a nil
pointer (panic); otherwise it builds the term. -/
def zbin (f : Term → Term → Term) (x y : Option Term) : ERes :=
  match x, y with
  | some a, some b => .ret (some (f a b)) none
  | _, _ => .panicked

/-- Function `processBOP` (process.go:219-247): dispatch on the binary operator
token; `!=` is built as `x.Eq(y).Not()`; any other token is the
unsupported-operator error (no term method is called, so no panic). -/
def processBOP (op : Tok) (x y : Option Term) : ERes :=
  match op with
  | .ADD => zbin .add x y
  | .SUB => zbin .sub x y
  | .MUL => zbin .mul x y
  | .LAND => zbin .and x y
  | .LOR => zbin .or x y
  | .EQL => zbin .eq x y
  | .LSS => zbin .lt x y
  | .GTR => zbin .gt x y
  | .NEQ => zbin (fun a b => .not (.eq a b)) x y
  | .LEQ => zbin .le x y
  | .GEQ => zbin .ge x y
  | _ => .ret none (some "not supported bop")

/-- The `if len(args) == 0 { err = ... }` check of `processCallExpr`
(process.go:274-276): run after the argument loop, it overwrites the loop's
pending error whenever no argument value was collected. -/
def zeroArgsErr (args : List (Option Term)) (errLoop : Option String) : Option String :=
  if args.length = 0 then some "too few argument of CallExpr" else errLoop

/-- Call `args[0].Distinct(args[1:]...)` (process.go:282): builds the pairwise
distinctness term; any nil AST among the collected arguments is a nil
dereference (panic).  The pending `err` is returned alongside the term. -/
def mkDistinct (args : List (Option Term)) (err : Option String) : ERes :=
  match args.mapM id with
  | some (t :: ts) => .ret (some (.distinct t ts)) err
  | _ => .panicked

/-- Calls `e.Implies(args[0])` / `e.Iff(args[0])` (process.go:299, 306): builds
the binary term from the receiver and the single collected argument; a nil
receiver or argument is a nil dereference (panic). -/
def mkBin2 (f : Term → Term → Term) (e : Option Term) (args : List (Option Term)) : ERes :=
  match e, args with
  | some et, [some a] => .ret (some (f et a)) none
  | _, _ => .panicked

/-- The shape of `ce.Fun` as `processCallExpr` dispatches on it
(process.go:277-314): an `Ident` (its name), a `SelectorExpr` (the result
of compiling its receiver `se.X`, and the method name `se.Sel.Name`), or
any other node.  The receiver's compilation result is recorded here so
that the dispatch itself (`callDispatch`) is non-recursive; since
expression compilation is effect-free, precomputing it preserves the Go
control flow exactly (its value is only consulted in the selector branch,
after the argument loop's outcome has been inspected). -/
inductive FunShape where
  | fid (name : String)
  | fsel (receiver : ERes) (sel : String)
  | fother

/-- The `switch ce.Fun.(type)` body of `processCallExpr`
(process.go:274-314), after the argument loop.  The zero-args check runs
first; each branch then overwrites `err` as in the source, except the
`distinct` success branch, which returns the pending error alongside the
constructed term.  A selector receiver that compiles successfully resets
`err` to nil, so the `implies`/`iff` branches decide on arity alone. -/
def callDispatch (fr : FunShape) (ar : ArgsRes) : ERes :=
  match ar with
  | .panicked => .panicked
  | .ret args errLoop =>
    match fr with
    | .fid name =>
      if name = "distinct" then
        if 1 < args.length then mkDistinct args (zeroArgsErr args errLoop)
        else .ret none (some "distinct must have 2 arguments at least")
      else .ret none (some "not supported Name of Indent")
    | .fsel rres sel =>
      match rres with
      | .panicked => .panicked
      | .ret _ (some msg) => .ret none (some msg)
      | .ret e none =>
        if sel = "implies" then
          if args.length = 1 then mkBin2 .implies e args
          else .ret none (some "imples must have signle argument")
        else if sel = "iff" then
          if args.length = 1 then mkBin2 .iff e args
          else .ret none (some "iff must have single argument")
        else .ret none (some "not supported Sel.Name of SelectorExpr")
    | .fother => .ret none (some "not supported Fun of CallExpr")

mutual

/-- Function `processExpr` (process.go:152-177): dispatch on the dynamic node type.
A bare `SelectorExpr`, and any node outside the switched set, falls to the
`default` branch. -/
def processExpr (varTab : VarTab) : Expr → ERes
  | .ident name => processIdent varTab name
  | .basicLit k v => processBasicLit k v
  | .binary xe op ye => processBinaryExpr varTab xe op ye
  | .unary op xe => processUnaryExpr varTab op xe
  | .call f args => processCallExpr varTab f args
  | .paren xe => processExpr varTab xe
  | .selector _ _ => .ret none (some "not supported Expr")
  | .badExpr => .ret none (some "not supported Expr")
termination_by e => (sizeOf e, 1)

/-- Function `processBinaryExpr` (process.go:206-216): left operand first; the right
operand and then the operator dispatch only run while `err == nil`.  On an
operand error the named return `r` is still nil. -/
def processBinaryExpr (varTab : VarTab) (xe : Expr) (op : Tok) (ye : Expr) : ERes :=
  match processExpr varTab xe with
  | .panicked => .panicked
  | .ret _ (some msg) => .ret none (some msg)
  | .ret x none =>
    match processExpr varTab ye with
    | .panicked => .panicked
    | .ret _ (some msg) => .ret none (some msg)
    | .ret y none => processBOP op x y
termination_by (sizeOf (Expr.binary xe op ye), 0)

/-- Function `processUnaryExpr` (process.go:250-262): compile the operand; only `!`
is supported, built as `x.Not()` (nil operand panics). -/
def processUnaryExpr (varTab : VarTab) (op : Tok) (xe : Expr) : ERes :=
  match processExpr varTab xe with
  | .panicked => .panicked
  | .ret _ (some msg) => .ret none (some msg)
  | .ret x none =>
    match op with
    | .NOT =>
      match x with
      | some t => .ret (some (.not t)) none
      | none => .panicked
    | _ => .ret none (some "not supported bop")
termination_by (sizeOf (Expr.unary op xe), 0)

/-- The `for _, arg := range ce.Args` loop opening `processCallExpr`
(process.go:267-273): compile each argument, breaking at the first error;
successfully returned values (which may be nil) are appended to `args`. -/
def processArgs (varTab : VarTab) : List Expr → ArgsRes
  | [] => .ret [] none
  | a :: rest =>
    match processExpr varTab a with
    | .panicked => .panicked
    | .ret _ (some msg) => .ret [] (some msg)
    | .ret e none =>
      match processArgs varTab rest with
      | .panicked => .panicked
      | .ret args err => .ret (e :: args) err
termination_by l => (sizeOf l, 1)

/-- Function `processCallExpr` (process.go:264-316).  All arguments are compiled
first; `err` is then overwritten by the zero-args check when `args` is
empty (`zeroArgsErr`), and possibly again inside the dispatch on `ce.Fun`:
an identifier callee other than `distinct`, a too-short `distinct`, a
selector whose receiver fails or whose method name/arity is wrong, each
assign `err` afresh.  A selector receiver that compiles successfully
resets `err` to nil, so the success branches of `implies`/`iff` return a
nil error even when an argument after the first had failed.
`args[0].Distinct(args[1:]...)`, `e.Implies(args[0])` and `e.Iff(args[0])`
panic if any involved AST is nil (`mkDistinct`, `mkBin2`).  The pending
`err` value is returned unoverwritten only in the `distinct` success
branch.  The body is `callDispatch` applied to the shape of `ce.Fun` and
the outcome of the argument loop. -/
def processCallExpr (varTab : VarTab) (f : Expr) (ceArgs : List Expr) : ERes :=
  callDispatch
    (match f with
     | .ident name => .fid name
     | .selector sx sel => .fsel (processExpr varTab sx) sel
     | _ => .fother)
    (processArgs varTab ceArgs)
termination_by (sizeOf (Expr.call f ceArgs), 0)

end

/-- The type dispatch of `processVarSpec` (process.go:73-96): `vs.Type` must
be an `Ident` named `int` or `bool`; an `ArrayType`, another type node, or
another type name each produce their own error. -/
def sortOf : TypeE → Except String ZSort
  | .ident n =>
    if n = "int" then .ok .int
    else if n = "bool" then .ok .bool
    else .error ("type " ++ n ++ " is not supported")
  | .array => .error "ArrayType of VarSpec is not supported"
  | .otherT => .error "not supported Type of ValueSpec"

/-- The `for _, name := range vs.Names` loop of `processVarSpec`
(process.go:102-110): a name already present in `varTab` stops the loop
with the duplicate error (names inserted earlier in the same loop stay);
otherwise `ctx.Const(ctx.Symbol(name), sort)` is bound to the name. -/
def insertNames (varTab : VarTab) (names : List String) (sort : ZSort) :
    VarTab × Option String :=
  match names with
  | [] => (varTab, none)
  | n :: rest =>
    if (List.lookup n (varTab : List (String × Term))).isSome then
      (varTab, some ("var " ++ n ++ " is already declared"))
    else insertNames (varTab ++ [(n, Term.const n sort)]) rest sort

/-- Function `processVarSpec` (process.go:70-113): determine the declared sort, then
register each name. -/
def processVarSpec (varTab : VarTab) (vs : VSpec) : VarTab × Option String :=
  match sortOf vs.ty with
  | .error msg => (varTab, some msg)
  | .ok sort => insertNames varTab vs.names sort

/-- Function `processDeclStmt` (process.go:55-66): a `GenDecl` with token `var`
hands `gd.Specs[0]` to `processVarSpec` — only the first spec of a
parenthesized `var ( ... )` group is ever looked at.  Any other
declaration shape is an error.  Indexing `Specs[0]` on an empty spec group
(`var ()`) is an out-of-range panic, modelled as `none`. -/
def processDeclStmt (varTab : VarTab) (d : Decl) : Option (VarTab × Option String) :=
  match d with
  | .genDecl tok specs =>
    if tok = Tok.VAR then
      match specs with
      | vs :: _ => some (processVarSpec varTab vs)
      | [] => none
    else some (varTab, some "not supported Tok of DeclStmt")
  | .otherDecl => some (varTab, some "not supported Tok of DeclStmt")

/-- Result of processing one statement (or a statement list): the variable
table and the solver's accumulated assertion list after the step, plus the
`err` return, or a panic.  The Go code mutates `varTab` (a map) and the
solver in place; both are threaded explicitly here. -/
inductive StepRes where
  | ret (tab : VarTab) (asserts : List Term) (err : Option String)
  | panicked

/-- Function `processExprStmt` (process.go:116-149): only `assert(expr)` with one
argument is accepted; its argument is compiled, and the resulting AST is
handed to `s.Assert` (appended to the assertion list).  `s.Assert(nil)` —
reachable when `processExpr` returns a nil term with nil error — is a nil
dereference (panic). -/
def processExprStmt (varTab : VarTab) (asserts : List Term) (x : Expr) : StepRes :=
  match x with
  | .call f args =>
    match f with
    | .ident name =>
      if name = "assert" then
        match args with
        | [a] =>
          match processExpr varTab a with
          | .panicked => .panicked
          | .ret _ (some msg) => .ret varTab asserts (some msg)
          | .ret (some t) none => .ret varTab (asserts ++ [t]) none
          | .ret none none => .panicked
        | _ => .ret varTab asserts (some "assert must have single argument")
      else .ret varTab asserts (some "not supported Fun of CallExpr")
    | _ => .ret varTab asserts (some "not supported Fun of CallExpr")
  | _ => .ret varTab asserts (some "not supported X of ExprStmt")

/-- Function `processStmt` (process.go:39-52): dispatch on the statement's dynamic
type; declarations never touch the solver. -/
def processStmt (varTab : VarTab) (asserts : List Term) : Stmt → StepRes
  | .declStmt d =>
    match processDeclStmt varTab d with
    | none => .panicked
    | some (tab, err) => .ret tab asserts err
  | .exprStmt x => processExprStmt varTab asserts x
  | .otherStmt => .ret varTab asserts (some "not supported Stmt")

/-- The `for _, stmt := range stmts` loop of `processSmtlFile`
(process.go:28-33): statements are processed top to bottom; the first
non-nil error breaks the loop and is the only error returned. -/
def processStmts (varTab : VarTab) (asserts : List Term) : List Stmt → StepRes
  | [] => .ret varTab asserts none
  | s :: rest =>
    match processStmt varTab asserts s with
    | .panicked => .panicked
    | .ret tab as (some msg) => .ret tab as (some msg)
    | .ret tab as none => processStmts tab as rest

/-- The main-function search of `parseSmtlFile` (parse.go:38-45): scan the
top-level declarations for the first function declaration whose name is
`main` (its parameters are never examined) and take its body; if none
matches, the statement list stays nil. -/
def findMain : List TopDecl → List Stmt
  | [] => []
  | .funcDecl n _ body :: rest => if n = "main" then body else findMain rest
  | .otherTop :: rest => findMain rest

/-- Function `parseSmtlFile` (parse.go:17-47), on an already-parsed file: the
package name must be the literal `smtl`; then the first `main` function's
body is extracted (or the empty list, with no error, when there is none). -/
def parseSmtlFile (f : File) : Except String (List Stmt) :=
  if f.pkgName ≠ "smtl" then .error (f.pkgName ++ " is not supported package")
  else .ok (findMain f.decls)

/-- Function `processSmtlFile` (process.go:17-36): parse, then run the statement
loop against a fresh solver.  On a parse/package error no solver exists
and nothing was processed; this is returned as an error with the table and
assertion list untouched (the caller only consults `err` in that case). -/
def processSmtlFile (varTab : VarTab) (f : File) : StepRes :=
  match parseSmtlFile f with
  | .error msg => .ret varTab [] (some msg)
  | .ok stmts => processStmts varTab [] stmts

/-- go-z3's `z3.LBool` (`solver.Check()` verdicts): `False` = unsatisfiable,
`Undef` = unknown, `True` = satisfiable. -/
inductive Z3Lbool where
  | lFalse | lUndef | lTrue
deriving DecidableEq

/-- The model-rendering tail of `run` (main.go:60-70): collect the variable
names from `varTab`, sort them (`sort.Strings` — ascending lexicographic),
and print one `name = value` line per name, values taken from the solver
model's assignment map. -/
def renderModel (varTab : VarTab) (assign : String → String) : List String :=
  (List.insertionSort (fun a b : String => a ≤ b) (varTab.map Prod.fst)).map
    (fun n => n ++ " = " ++ assign n)

/-- Function `run` (main.go:21-73): the CLI driver.  Inputs beyond the embedded
source tree are parameters: the argument vector, the `VERSION` constant
(defined outside the provided sources), the parsed file, the solver's
verdict for the accumulated constraints, and the model's assignment map.
Returns the exit code and the standard-output lines, or `none` when the
compilation panicked (the process dies without reaching an exit path).
Missing file argument → 1 (usage to standard error, not modelled);
compilation error → 2 (message to standard error); `solver.Check()`
returning anything but `z3.True` → "Unsolveable" and 3; otherwise the
rendered model and 0. -/
def run (argv : List String) (version : String) (f : File) (check : Z3Lbool)
    (assign : String → String) : Option (Int × List String) :=
  if argv.length < 2 then some (1, [])
  else
    match processSmtlFile [] f with
    | .panicked => none
    | .ret _ _ (some _) => some (2, ["smtrun " ++ version])
    | .ret tab _ none =>
      if check ≠ Z3Lbool.lTrue then some (3, ["smtrun " ++ version, "Unsolveable"])
      else some (0, ("smtrun " ++ version) :: renderModel tab assign)

/-! ## Concrete inputs used by the claim theorems -/

/-- Whether a top-level declaration is a function declaration named `main`
(as `parseSmtlFile` tests it: the name alone). -/
def isMainDecl : TopDecl → Bool
  | .funcDecl n _ _ => n = "main"
  | .otherTop => false

/-- A file whose only `main` function has a parameter. -/
def fileMainWithParam : File :=
  ⟨"smtl", [TopDecl.funcDecl "main" ["x"] [Stmt.otherStmt]]⟩

/-- A file with an empty, parameterless `main`. -/
def emptyMainFile : File :=
  ⟨"smtl", [TopDecl.funcDecl "main" [] []]⟩

/-- A table declaring a single boolean variable `x`. -/
def tabX : VarTab := [("x", Term.const "x" ZSort.bool)]

/-- The statement `var x int`. -/
def declXInt : Stmt :=
  .declStmt (.genDecl .VAR [⟨["x"], .ident "int"⟩])

/-- The statement `assert(true)`. -/
def assertTrue : Stmt :=
  .exprStmt (.call (.ident "assert") [.ident "true"])

/-! ## Helper lemmas -/

/-- Unfolding `processExpr` on a call whose callee is a plain identifier. -/
theorem processExpr_call_ident (varTab : VarTab) (name : String) (args : List Expr) :
    processExpr varTab (.call (.ident name) args) =
      callDispatch (.fid name) (processArgs varTab args) := by
  simp [processExpr, processCallExpr]

/-- Unfolding `processExpr` on a call whose callee is a selector. -/
theorem processExpr_call_sel (varTab : VarTab) (sx : Expr) (sel : String) (args : List Expr) :
    processExpr varTab (.call (.selector sx sel) args) =
      callDispatch (.fsel (processExpr varTab sx) sel) (processArgs varTab args) := by
  simp [processExpr, processCallExpr]

/-- The argument loop on an empty argument list collects nothing. -/
theorem processArgs_nil (varTab : VarTab) : processArgs varTab [] = .ret [] none := by
  simp [processArgs]

/-- The argument loop on a single argument. -/
theorem processArgs_singleton (varTab : VarTab) (a : Expr) :
    processArgs varTab [a] =
      match processExpr varTab a with
      | .panicked => .panicked
      | .ret _ (some msg) => .ret [] (some msg)
      | .ret e none => .ret [e] none := by
  rw [processArgs]
  cases h : processExpr varTab a with
  | panicked => rfl
  | ret r err => cases err <;> simp [processArgs]

/-! ## Claim theorems -/

/-- Claim C1 (code_bug evidence).  The spec requires an integer literal
whose decimal text fails to parse to be a `MalformedLiteral` error, and the
source checks the `strconv.Atoi` error — but binds it with `:=`, shadowing
the named return, so the failure is silently dropped: on the INT literal
`0x10` (whose text `Atoi` rejects) `processBasicLit` returns a nil term
with a nil error, and the whole expression compiles to a nil term with no
error instead of failing. -/
theorem processBasicLit_drops_malformed_literal :
    processBasicLit Tok.INT "0x10" = ERes.ret none none ∧
    processExpr [] (Expr.basicLit Tok.INT "0x10") = ERes.ret none none ∧
    atoi "0x10" = none := by
  refine ⟨rfl, ?_, rfl⟩
  simp [processExpr, processBasicLit, atoi]

/-- Claim C10 (confirmed).  A basic literal whose token kind is not INT
compiles to a nil term with a nil error — silently accepted — and the nil
term then flows into the enclosing operation: a string literal used as an
operand of `+` reaches the solver's term constructor as nil
(a nil dereference, crashing the process). -/
theorem processBasicLit_nonInt_silent (kind : Tok) (value : String)
    (h : kind ≠ Tok.INT) :
    processBasicLit kind value = ERes.ret none none ∧
    processExpr [] (Expr.binary (Expr.basicLit Tok.STRING "\"a\"") Tok.ADD
      (Expr.basicLit Tok.INT "1")) = ERes.panicked := by
  constructor
  · unfold processBasicLit
    rw [if_neg h]
  · simp [processExpr, processBinaryExpr, processBasicLit, processBOP, atoi, zbin]

/-- Witness for `processBasicLit_nonInt_silent` at the string literal kind. -/
theorem processBasicLit_nonInt_silent_witness :
    Tok.STRING ≠ Tok.INT ∧
    (processBasicLit Tok.STRING "\"a\"" = ERes.ret none none ∧
     processExpr [] (Expr.binary (Expr.basicLit Tok.STRING "\"a\"") Tok.ADD
       (Expr.basicLit Tok.INT "1")) = ERes.panicked) :=
  ⟨by decide, processBasicLit_nonInt_silent Tok.STRING "\"a\"" (by decide)⟩

/-- Claim C9 (confirmed).  A `var ( ... )` group with several specs behaves
exactly like the group containing only its first spec: the remaining specs
are ignored, declaring no symbol and raising no error.  Concretely,
`var ( x int ; y int )` declares `x` and leaves `y` undeclared. -/
theorem processDeclStmt_ignores_later_specs :
    (∀ (varTab : VarTab) (tok : Tok) (vs : VSpec) (rest : List VSpec),
       processDeclStmt varTab (.genDecl tok (vs :: rest)) =
         processDeclStmt varTab (.genDecl tok [vs])) ∧
    processDeclStmt [] (.genDecl .VAR [⟨["x"], .ident "int"⟩, ⟨["y"], .ident "int"⟩]) =
      some ([("x", Term.const "x" ZSort.int)], none) ∧
    List.lookup "y" [("x", Term.const "x" ZSort.int)] = none := by
  refine ⟨fun varTab tok vs rest => rfl, rfl, rfl⟩

/-- Claim C5 (counterexample).  The claim requires the extracted entry
point to be a `main` function *with no parameters*; the source never looks
at the parameter list.  A file whose only `main` takes a parameter should
therefore yield the empty statement list, but its body is extracted
anyway. -/
theorem parseSmtlFile_accepts_main_with_params :
    parseSmtlFile fileMainWithParam = .ok [Stmt.otherStmt] ∧
    [Stmt.otherStmt] ≠ ([] : List Stmt) := by
  exact ⟨rfl, by simp⟩

/-- Helper: `findMain` passes over declarations that are not a `main` function. -/
theorem findMain_skips_nonMain (pre : List TopDecl) (rest : List TopDecl)
    (hpre : ∀ d ∈ pre, isMainDecl d = false) :
    findMain (pre ++ rest) = findMain rest := by
  induction pre with
  | nil => rfl
  | cons d ds ih =>
    have hd := hpre d (by simp)
    have ihh := ih (fun d hm => hpre d (by simp [hm]))
    cases d with
    | funcDecl n p b =>
      simp [isMainDecl] at hd
      simpa [findMain, hd] using ihh
    | otherTop => simpa [findMain] using ihh

/-- Claim C5 (amended).  The Syntax Adapter extracts the body of the
*first* top-level function declaration named `main`, regardless of its
parameters; when no function is named `main`, the result is the empty
statement list and not an error. -/
theorem parseSmtlFile_first_main (pre rest : List TopDecl) (params : List String)
    (body : List Stmt) (f : File)
    (hpre : ∀ d ∈ pre, isMainDecl d = false)
    (hf : f.pkgName = "smtl")
    (hnone : ∀ d ∈ f.decls, isMainDecl d = false) :
    findMain (pre ++ TopDecl.funcDecl "main" params body :: rest) = body ∧
    parseSmtlFile f = .ok [] := by
  refine ⟨?_, ?_⟩
  · rw [findMain_skips_nonMain pre _ hpre]
    simp [findMain]
  · have h3 := findMain_skips_nonMain f.decls [] hnone
    rw [List.append_nil] at h3
    simp [parseSmtlFile, hf, h3, findMain]

/-- Witness for `parseSmtlFile_first_main`: a non-main declaration before
`main`, and a file with no `main` at all. -/
theorem parseSmtlFile_first_main_witness :
    (∀ d ∈ [TopDecl.funcDecl "g" [] []], isMainDecl d = false) ∧
    (File.mk "smtl" [TopDecl.otherTop]).pkgName = "smtl" ∧
    (∀ d ∈ (File.mk "smtl" [TopDecl.otherTop]).decls, isMainDecl d = false) ∧
    (findMain ([TopDecl.funcDecl "g" [] []] ++
        TopDecl.funcDecl "main" ["p"] [Stmt.otherStmt] :: [TopDecl.otherTop]) =
      [Stmt.otherStmt] ∧
     parseSmtlFile (File.mk "smtl" [TopDecl.otherTop]) = .ok []) := by
  refine ⟨?_, rfl, ?_, parseSmtlFile_first_main _ _ _ _ _ ?_ rfl ?_⟩ <;>
    simp [isMainDecl]

/-- Claim C4 (counterexample).  The claim says a call with zero arguments
fails with an ArityError regardless of the callee's name.  In the source
the zero-arguments error is assigned first but then overwritten by the
callee dispatch: `foo()` reports the unsupported-call error, not the
arity error. -/
theorem processCallExpr_zeroArgs_not_arity :
    processExpr [] (.call (.ident "foo") []) =
      .ret none (some "not supported Name of Indent") ∧
    processExpr [] (.call (.ident "foo") []) ≠
      .ret none (some "too few argument of CallExpr") := by
  constructor
  · simp [processExpr_call_ident, processArgs_nil, callDispatch]
  · simp [processExpr_call_ident, processArgs_nil, callDispatch]

/-- Claim C4 (amended).  For a call expression outside assert position:
a callee identifier other than `distinct` reports the unsupported-call
error even with zero arguments (the zero-arguments arity error is
overwritten by the dispatch); `distinct` with zero arguments or with one
(compiling) argument reports the distinct arity error. -/
theorem processCallExpr_arity_amended :
    (∀ (varTab : VarTab) (name : String) (args0 : List Expr),
        name ≠ "distinct" → processArgs varTab args0 ≠ .panicked →
        processExpr varTab (.call (.ident name) args0) =
          .ret none (some "not supported Name of Indent")) ∧
    (∀ varTab : VarTab,
        processExpr varTab (.call (.ident "distinct") []) =
          .ret none (some "distinct must have 2 arguments at least")) ∧
    (∀ (varTab : VarTab) (a : Expr) (t : Term),
        processExpr varTab a = .ret (some t) none →
        processExpr varTab (.call (.ident "distinct") [a]) =
          .ret none (some "distinct must have 2 arguments at least")) := by
  refine ⟨?_, ?_, ?_⟩
  · intro varTab name args0 hname hnp
    rw [processExpr_call_ident]
    cases h : processArgs varTab args0 with
    | panicked => exact absurd h hnp
    | ret args err => simp [callDispatch, hname]
  · intro varTab
    simp [processExpr_call_ident, processArgs_nil, callDispatch]
  · intro varTab a t ha
    rw [processExpr_call_ident, processArgs_singleton, ha]
    simp [callDispatch]

/-- Witness for `processCallExpr_arity_amended`: the call `foo()` and the
call `distinct(true)`. -/
theorem processCallExpr_arity_amended_witness :
    ("foo" ≠ "distinct" ∧ processArgs [] ([] : List Expr) ≠ .panicked ∧
      processExpr [] (.call (.ident "foo") []) =
        .ret none (some "not supported Name of Indent")) ∧
    (processExpr [] (.ident "true") = .ret (some .tt) none ∧
      processExpr [] (.call (.ident "distinct") [.ident "true"]) =
        .ret none (some "distinct must have 2 arguments at least")) := by
  refine ⟨⟨by decide, ?_, processCallExpr_arity_amended.1 [] "foo" [] (by decide) ?_⟩,
         ⟨?_, processCallExpr_arity_amended.2.2 [] (.ident "true") .tt ?_⟩⟩ <;>
    simp [processArgs_nil, processExpr, processIdent]

/-- Claim C3 (counterexample).  The claim says the receiver of a
method-style call is compiled before the argument, so errors propagate
from the argument once the receiver is fine.  In the source the argument
loop runs first and a failing argument's error is later overwritten: on
`x.implies(y)` with `x` declared and `y` undeclared, the result is the
arity error (no argument value was collected), not the unknown-variable
error for `y` that argument-after-receiver compilation would surface. -/
theorem processCallExpr_args_before_receiver :
    processExpr tabX (.call (.selector (.ident "x") "implies") [.ident "y"]) =
      .ret none (some "imples must have signle argument") ∧
    processExpr tabX (.call (.selector (.ident "x") "implies") [.ident "y"]) ≠
      .ret none (some "y is unknown variable") := by
  constructor <;>
    simp [processExpr_call_sel, processArgs_singleton, processExpr, processIdent,
      tabX, List.lookup, callDispatch]

/-- Claim C3 (amended).  For `receiver.name(argument)` the argument list is
compiled before the receiver.  When receiver and argument both compile and
`name` is exactly `implies` (resp. `iff`) with exactly one argument, the
result is the implication (resp. biconditional) term over (receiver term,
argument term).  When the argument fails and the receiver compiles, the
argument's error is overwritten and an arity error is reported; when both
fail, the receiver's error surfaces. -/
theorem processCallExpr_method_amended :
    (∀ (varTab : VarTab) (rx a : Expr) (et at' : Term),
        processExpr varTab rx = .ret (some et) none →
        processExpr varTab a = .ret (some at') none →
        processExpr varTab (.call (.selector rx "implies") [a]) =
          .ret (some (.implies et at')) none ∧
        processExpr varTab (.call (.selector rx "iff") [a]) =
          .ret (some (.iff et at')) none) ∧
    (∀ (varTab : VarTab) (rx a : Expr) (et : Term) (ra : Option Term) (ea : String),
        processExpr varTab rx = .ret (some et) none →
        processExpr varTab a = .ret ra (some ea) →
        processExpr varTab (.call (.selector rx "implies") [a]) =
          .ret none (some "imples must have signle argument")) ∧
    (∀ (varTab : VarTab) (rx a : Expr) (sel : String) (rr ra : Option Term) (er ea : String),
        processExpr varTab rx = .ret rr (some er) →
        processExpr varTab a = .ret ra (some ea) →
        processExpr varTab (.call (.selector rx sel) [a]) = .ret none (some er)) := by
  refine ⟨?_, ?_, ?_⟩
  · intro varTab rx a et at' hr ha
    constructor <;>
      · rw [processExpr_call_sel, processArgs_singleton, ha, hr]
        simp [callDispatch, mkBin2]
  · intro varTab rx a et ra ea hr ha
    rw [processExpr_call_sel, processArgs_singleton, ha, hr]
    simp [callDispatch]
  · intro varTab rx a sel rr ra er ea hr ha
    rw [processExpr_call_sel, processArgs_singleton, ha, hr]
    simp [callDispatch]

/-- Witness for `processCallExpr_method_amended`: `x.implies(true)` and
`x.iff(true)` with `x` a declared boolean; `y.implies(z)` with both
undeclared. -/
theorem processCallExpr_method_amended_witness :
    (processExpr tabX (.ident "x") = .ret (some (Term.const "x" ZSort.bool)) none ∧
     processExpr tabX (.ident "true") = .ret (some .tt) none ∧
     (processExpr tabX (.call (.selector (.ident "x") "implies") [.ident "true"]) =
        .ret (some (.implies (Term.const "x" ZSort.bool) .tt)) none ∧
      processExpr tabX (.call (.selector (.ident "x") "iff") [.ident "true"]) =
        .ret (some (.iff (Term.const "x" ZSort.bool) .tt)) none)) ∧
    (processExpr [] (.ident "y") = .ret none (some "y is unknown variable") ∧
     processExpr [] (.ident "z") = .ret none (some "z is unknown variable") ∧
     processExpr [] (.call (.selector (.ident "y") "implies") [.ident "z"]) =
       .ret none (some "y is unknown variable")) := by
  refine ⟨⟨?_, ?_, processCallExpr_method_amended.1 tabX (.ident "x") (.ident "true")
            (Term.const "x" ZSort.bool) .tt ?_ ?_⟩,
          ⟨?_, ?_, processCallExpr_method_amended.2.2 [] (.ident "y") (.ident "z")
            "implies" none none "y is unknown variable" "z is unknown variable" ?_ ?_⟩⟩ <;>
    simp [processExpr, processIdent, tabX, List.lookup]

/-- Lookup misses the left part of an appended table when it misses there. -/
theorem lookup_append_of_none (n : String) (l1 l2 : List (String × Term))
    (h : List.lookup n l1 = none) :
    List.lookup n (l1 ++ l2) = List.lookup n l2 := by
  induction l1 with
  | nil => simp
  | cons p ps ih =>
    obtain ⟨k, v⟩ := p
    by_cases hk : (n == k) = true
    · simp [List.lookup, hk] at h
    · simp only [List.cons_append, List.lookup, Bool.not_eq_true] at h ⊢
      rw [Bool.not_eq_true] at hk
      rw [hk] at h ⊢
      exact ih h

/-- Claim C6, success part: inserting pairwise-distinct names that are all
absent from the table appends one fresh constant of the declared sort per
name, with no error. -/
theorem insertNames_fresh (names : List String) (sort : ZSort) :
    ∀ varTab : VarTab, names.Nodup → (∀ n ∈ names, List.lookup n varTab = none) →
    insertNames varTab names sort =
      (varTab ++ names.map (fun n => (n, Term.const n sort)), none) := by
  induction names with
  | nil => intro varTab _ _; simp [insertNames]
  | cons n rest ih =>
    intro varTab hnd hfresh
    have hn := hfresh n (by simp)
    rw [insertNames, hn]
    simp only [Option.isSome_none, Bool.false_eq_true, if_false]
    have hfresh' : ∀ m ∈ rest, List.lookup m (varTab ++ [(n, Term.const n sort)]) = none := by
      intro m hm
      have hm_ne : (m == n) = false := by
        rcases List.nodup_cons.mp hnd with ⟨hnin, _⟩
        simp only [beq_eq_false_iff_ne, ne_eq]
        intro he
        exact hnin (he ▸ hm)
      rw [lookup_append_of_none m varTab _ (hfresh m (by simp [hm]))]
      simp [List.lookup, hm_ne]
    rw [ih (varTab ++ [(n, Term.const n sort)]) (List.nodup_cons.mp hnd).2 hfresh']
    simp

/-- Claim C6 (confirmed).  Declaring a name already present in the table
fails with the duplicate-declaration error for that name; fresh names are
each bound to a new constant of the declared sort.  In particular a source
declaring `var x int` twice fails with that error before any assertion is
processed (the assertion list is still empty). -/
theorem processVarSpec_duplicate_detected :
    (∀ (varTab : VarTab) (sort : ZSort) (n : String) (rest : List String),
        (List.lookup n varTab).isSome →
        insertNames varTab (n :: rest) sort =
          (varTab, some ("var " ++ n ++ " is already declared"))) ∧
    (∀ (names : List String) (sort : ZSort) (varTab : VarTab),
        names.Nodup → (∀ n ∈ names, List.lookup n varTab = none) →
        insertNames varTab names sort =
          (varTab ++ names.map (fun n => (n, Term.const n sort)), none)) ∧
    processStmts [] [] [declXInt, declXInt, assertTrue] =
      .ret [("x", Term.const "x" ZSort.int)] [] (some "var x is already declared") := by
  refine ⟨?_, fun names sort varTab hnd hf => insertNames_fresh names sort varTab hnd hf, ?_⟩
  · intro varTab sort n rest hdup
    rw [insertNames]
    simp [hdup]
  · rfl

/-- Witness for `processVarSpec_duplicate_detected`: duplicate `x` against
a table already holding `x`; fresh `a`, `b` against the empty table. -/
theorem processVarSpec_duplicate_detected_witness :
    ((List.lookup "x" [("x", Term.const "x" ZSort.int)]).isSome ∧
      insertNames [("x", Term.const "x" ZSort.int)] ["x"] ZSort.int =
        ([("x", Term.const "x" ZSort.int)], some "var x is already declared")) ∧
    (List.Nodup ["a", "b"] ∧
      (∀ n ∈ ["a", "b"], List.lookup n ([] : VarTab) = none) ∧
      insertNames [] ["a", "b"] ZSort.bool =
        ([("a", Term.const "a" ZSort.bool), ("b", Term.const "b" ZSort.bool)], none)) := by
  refine ⟨⟨rfl, ?_⟩, ⟨by simp, fun n hn => rfl, ?_⟩⟩
  · exact processVarSpec_duplicate_detected.1 [("x", Term.const "x" ZSort.int)]
      ZSort.int "x" [] rfl
  · have h := processVarSpec_duplicate_detected.2.1 ["a", "b"] ZSort.bool []
      (by simp) (fun n hn => rfl)
    simpa using h

/-- A statement that returns an error leaves the assertion list unchanged:
declarations never touch the solver, and `processExprStmt` only asserts in
its success path. -/
theorem processStmt_err_keeps_asserts (varTab : VarTab) (asserts : List Term)
    (s : Stmt) (tab' : VarTab) (as' : List Term) (e : String)
    (h : processStmt varTab asserts s = .ret tab' as' (some e)) : as' = asserts := by
  cases s with
  | declStmt d =>
    simp only [processStmt] at h
    cases hd : processDeclStmt varTab d with
    | none => simp [hd] at h
    | some p =>
      obtain ⟨t, err⟩ := p
      simp only [hd] at h
      cases h
      rfl
  | exprStmt x =>
    simp only [processStmt, processExprStmt] at h
    repeat split at h
    all_goals first
      | (cases h; rfl)
      | cases h
  | otherStmt =>
    simp only [processStmt] at h
    cases h
    rfl

/-- Claim C2 (confirmed).  When compiling a statement list returns an
error, the list splits as a successfully processed prefix, the first
erroneous statement, and an unprocessed remainder: the returned error is
the one from that statement, and the asserted terms are exactly those
accumulated by the prefix — no term from the failing statement or any
later statement reaches the solver. -/
theorem processStmts_first_error_aborts (stmts : List Stmt) (tab : VarTab)
    (as : List Term) (e : String)
    (h : processStmts [] [] stmts = .ret tab as (some e)) :
    ∃ pre bad rest tab₁, stmts = pre ++ bad :: rest ∧
      processStmts [] [] pre = .ret tab₁ as none ∧
      processStmt tab₁ as bad = .ret tab as (some e) := by
  have main : ∀ (stmts : List Stmt) (tab0 : VarTab) (as0 : List Term)
      (tab : VarTab) (as : List Term) (e : String),
      processStmts tab0 as0 stmts = .ret tab as (some e) →
      ∃ pre bad rest tab₁, stmts = pre ++ bad :: rest ∧
        processStmts tab0 as0 pre = .ret tab₁ as none ∧
        processStmt tab₁ as bad = .ret tab as (some e) := by
    intro stmts
    induction stmts with
    | nil =>
      intro tab0 as0 tab as e h
      rw [processStmts] at h
      cases h
    | cons s rest ih =>
      intro tab0 as0 tab as e h
      rw [processStmts] at h
      split at h
      next heq => cases h
      next tab1 as1 msg heq =>
        cases h
        have has := processStmt_err_keeps_asserts _ _ _ _ _ _ heq
        subst has
        exact ⟨[], s, rest, tab0, by simp, by rw [processStmts], heq⟩
      next tab1 as1 heq =>
        obtain ⟨pre', bad, rest', tab₁, hsplit, hpre, hbad⟩ := ih tab1 as1 tab as e h
        refine ⟨s :: pre', bad, rest', tab₁, by simp [hsplit], ?_, hbad⟩
        rw [processStmts, heq]
        exact hpre
  exact main stmts [] [] tab as e h

/-- Witness for `processStmts_first_error_aborts`: a single assertion on an
undeclared variable. -/
theorem processStmts_first_error_aborts_witness :
    processStmts [] [] [.exprStmt (.call (.ident "assert") [.ident "y"])] =
      .ret [] [] (some "y is unknown variable") ∧
    ∃ pre bad rest tab₁,
      [Stmt.exprStmt (.call (.ident "assert") [.ident "y"])] = pre ++ bad :: rest ∧
      processStmts [] [] pre = .ret tab₁ [] none ∧
      processStmt tab₁ [] bad = .ret [] [] (some "y is unknown variable") := by
  have h : processStmts [] [] [.exprStmt (.call (.ident "assert") [.ident "y"])] =
      .ret [] [] (some "y is unknown variable") := by
    simp [processStmts, processStmt, processExprStmt, processExpr, processIdent]
  exact ⟨h, processStmts_first_error_aborts _ _ _ _ h⟩

/-- A file whose `main` asserts an undeclared variable. -/
def badVarFile : File :=
  ⟨"smtl", [TopDecl.funcDecl "main" []
    [.exprStmt (.call (.ident "assert") [.ident "y"])]]⟩

/-- Claim C7 (counterexample).  The claim reserves exit code 3 for the
unsatisfiable verdict, distinct from Unknown; but `run` tests
`solver.Check() != z3.True`, so the Unknown verdict (`z3.Undef`) also
prints "Unsolveable" and exits 3. -/
theorem run_conflates_unknown_with_unsat :
    run ["smtrun", "c.smtl"] "0.1" emptyMainFile .lUndef (fun _ => "") =
      some (3, ["smtrun 0.1", "Unsolveable"]) ∧
    Z3Lbool.lUndef ≠ Z3Lbool.lFalse := by
  exact ⟨rfl, by decide⟩

/-- Claim C7 (amended).  Exit codes of `run`: 1 when the file argument is
missing; 2 on any compilation error; 0, with the rendered model, when
compilation succeeds and the solver answers satisfiable; 3, with
"Unsolveable", when compilation succeeds and the solver's verdict is
anything other than satisfiable — unsatisfiable or unknown alike. -/
theorem run_exit_codes (argv : List String) (version : String) (f : File)
    (check : Z3Lbool) (assign : String → String) :
    (argv.length < 2 → run argv version f check assign = some (1, [])) ∧
    (∀ (tab : VarTab) (as : List Term) (msg : String), 2 ≤ argv.length →
      processSmtlFile [] f = .ret tab as (some msg) →
      run argv version f check assign = some (2, ["smtrun " ++ version])) ∧
    (∀ (tab : VarTab) (as : List Term), 2 ≤ argv.length →
      processSmtlFile [] f = .ret tab as none → check = .lTrue →
      run argv version f check assign =
        some (0, ("smtrun " ++ version) :: renderModel tab assign)) ∧
    (∀ (tab : VarTab) (as : List Term), 2 ≤ argv.length →
      processSmtlFile [] f = .ret tab as none → check ≠ .lTrue →
      run argv version f check assign =
        some (3, ["smtrun " ++ version, "Unsolveable"])) := by
  refine ⟨?_, ?_, ?_, ?_⟩
  · intro h
    simp [run, h]
  · intro tab as msg hlen hp
    simp [run, Nat.not_lt.mpr hlen, hp]
  · intro tab as hlen hp hc
    simp [run, Nat.not_lt.mpr hlen, hp, hc]
  · intro tab as hlen hp hc
    simp [run, Nat.not_lt.mpr hlen, hp, hc]

/-- Witness for `run_exit_codes`: the missing-argument, compile-error,
satisfiable, and non-satisfiable paths at concrete inputs. -/
theorem run_exit_codes_witness :
    ((["smtrun"] : List String).length < 2 ∧
      run ["smtrun"] "0.1" emptyMainFile .lTrue (fun _ => "") = some (1, [])) ∧
    (2 ≤ (["smtrun", "c.smtl"] : List String).length ∧
      processSmtlFile [] badVarFile = .ret [] [] (some "y is unknown variable") ∧
      run ["smtrun", "c.smtl"] "0.1" badVarFile .lTrue (fun _ => "") =
        some (2, ["smtrun 0.1"])) ∧
    (processSmtlFile [] emptyMainFile = .ret [] [] none ∧
      run ["smtrun", "c.smtl"] "0.1" emptyMainFile .lTrue (fun _ => "") =
        some (0, "smtrun 0.1" :: renderModel [] (fun _ => ""))) ∧
    (Z3Lbool.lFalse ≠ Z3Lbool.lTrue ∧
      run ["smtrun", "c.smtl"] "0.1" emptyMainFile .lFalse (fun _ => "") =
        some (3, ["smtrun 0.1", "Unsolveable"])) := by
  have hbad : processSmtlFile [] badVarFile = .ret [] [] (some "y is unknown variable") := by
    simp [processSmtlFile, parseSmtlFile, badVarFile, findMain, processStmts, processStmt,
      processExprStmt, processExpr, processIdent]
  refine ⟨⟨by simp, (run_exit_codes _ "0.1" emptyMainFile .lTrue _).1 (by simp)⟩,
         ⟨by simp, hbad,
          (run_exit_codes _ "0.1" badVarFile .lTrue _).2.1 [] [] _ (by simp) hbad⟩,
         ⟨rfl, (run_exit_codes _ "0.1" emptyMainFile .lTrue _).2.2.1 [] [] (by simp) rfl rfl⟩,
         ⟨by decide, (run_exit_codes _ "0.1" emptyMainFile .lFalse _).2.2.2 [] [] (by simp)
            rfl (by decide)⟩⟩

/-- The model table `{"b","a","c"}` in declaration order. -/
def demoTabBAC : VarTab := [("b", Term.tt), ("a", Term.tt), ("c", Term.tt)]

/-- The same table in a different declaration order. -/
def demoTabABC : VarTab := [("a", Term.tt), ("b", Term.tt), ("c", Term.tt)]

/-- Claim C8 (confirmed).  The rendered model is one `name = value` line
per declared variable; the names are sorted lexicographically (the sorted
name list is a permutation of the table's keys), and the rendered output
does not depend on the table's declaration order.  Concretely, names
`{"b","a","c"}` render in order `a, b, c`. -/
theorem renderModel_sorted (tab tab' : VarTab) (assign : String → String)
    (hperm : tab.Perm tab') :
    List.Sorted (fun a b : String => a ≤ b)
      (List.insertionSort (fun a b : String => a ≤ b) (tab.map Prod.fst)) ∧
    (List.insertionSort (fun a b : String => a ≤ b) (tab.map Prod.fst)).Perm
      (tab.map Prod.fst) ∧
    renderModel tab assign =
      (List.insertionSort (fun a b : String => a ≤ b) (tab.map Prod.fst)).map
        (fun n => n ++ " = " ++ assign n) ∧
    renderModel tab assign = renderModel tab' assign ∧
    renderModel demoTabBAC (fun _ => "1") = ["a = 1", "b = 1", "c = 1"] := by
  refine ⟨List.sorted_insertionSort _ _, List.perm_insertionSort _ _, rfl, ?_, ?_⟩
  · have hkeys : (tab.map Prod.fst).Perm (tab'.map Prod.fst) := hperm.map _
    have h1 : (List.insertionSort (fun a b : String => a ≤ b) (tab.map Prod.fst)).Perm
        (List.insertionSort (fun a b : String => a ≤ b) (tab'.map Prod.fst)) :=
      ((List.perm_insertionSort _ _).trans hkeys).trans (List.perm_insertionSort _ _).symm
    have heq := List.eq_of_perm_of_sorted h1 (List.sorted_insertionSort _ _)
      (List.sorted_insertionSort _ _)
    unfold renderModel
    rw [heq]
  · have h1 : ¬ (['b'] ≤ ['a'] : Prop) := by decide
    have h2 : (['b'] ≤ ['c'] : Prop) := by decide
    simp [renderModel, demoTabBAC, List.insertionSort, List.orderedInsert, h1, h2]

/-- Witness for `renderModel_sorted`: the `{"b","a","c"}` table against its
reordering. -/
theorem renderModel_sorted_witness :
    demoTabBAC.Perm demoTabABC ∧
    renderModel demoTabBAC (fun _ => "1") = renderModel demoTabABC (fun _ => "1") := by
  have hp : demoTabBAC.Perm demoTabABC := List.Perm.swap ("a", Term.tt) ("b", Term.tt) _
  exact ⟨hp, (renderModel_sorted demoTabBAC demoTabABC (fun _ => "1") hp).2.2.2.1⟩
